import Mathlib

/-!
Verification of the ymir-yolov5 adapter (utils/ymir_yolov5.py).

The file shallowly embeds the adapter logic: weight-file resolution
(get_weight_file), task indexing in the constructor, the forward pass with
optional non-max suppression, the predict post-processing, progress
reporting, and the dataset conversion (convert_ymir_to_yolov5).

External dependencies (the filesystem, creation timestamps, the model, the
imported non_max_suppression and scale_boxes routines, the progress monitor)
are passed in as explicit function parameters, so every definition is a pure
total function over them.
-/

namespace YmirSpec

/-- Python str.endswith: true when the trailing characters of s equal suf. -/
def strEndsWith (s suf : String) : Bool :=
  decide (suf.data.length ≤ s.data.length) &&
  decide (s.data.drop (s.data.length - suf.data.length) = suf.data)

/-- Python max(x :: ys, key=f) semantics: a left fold keeping the current
maximum and replacing it only on a strictly greater key, so the first
maximal element wins. -/
def pyMax (f : String → Int) (x : String) : List String → String
  | [] => x
  | y :: ys => pyMax f (if f y > f x then y else x) ys

/-- get_weight_file: scan the candidate list and return the first path that
ends with "best.pt"; otherwise return the candidate with the latest creation
time (Python max over getctime); otherwise return the empty string.  The
candidate list itself comes from the external ymir_exc helper
get_weight_files, so it is a parameter here, as is the getctime function. -/
def get_weight_file (weight_files : List String) (getctime : String → Int) : String :=
  match weight_files.find? (fun p => strEndsWith p "best.pt") with
  | some p => p
  | none =>
      match weight_files with
      | [] => ""
      | x :: xs => pyMax getctime x xs

/-- Task indexing in the YmirYolov5 constructor: when both run_mining and
run_infer are set, the run is a two-task run (mining first, infer later) and
an unknown task label raises; otherwise the run is a single task.  The result
is Except errorMessage (task_idx, task_num). -/
def taskIndexing (run_mining run_infer : Bool) (task : String) : Except String (Nat × Nat) :=
  if run_mining && run_infer then
    if task = "infer" then Except.ok (1, 2)
    else if task = "mining" then Except.ok (0, 2)
    else Except.error ("unknown task " ++ task)
  else
    Except.ok (0, 1)

/-- Arguments the adapter passes to the imported non_max_suppression. -/
structure NMSArgs where
  conf_thres : Rat
  iou_thres : Rat
  classes : Option (List Nat)
  agnostic : Bool
  max_det : Nat

/-- The adapter state relevant to forward and progress reporting; the model
is an abstract function from batches to predictions. -/
structure YmirYolov5 (α β : Type) where
  conf_thres : Rat
  iou_thres : Rat
  task_idx : Nat
  task_num : Nat
  model : α → β

/-- YmirYolov5.forward: run the model; when nms is false return the raw
prediction, otherwise pass it to non_max_suppression (an external routine,
the parameter nmsFn) with the configured thresholds, classes = none,
agnostic = false and max_det = 100. -/
def YmirYolov5.forward {α β : Type} (nmsFn : β → NMSArgs → β)
    (self : YmirYolov5 α β) (x : α) (nms : Bool) : β :=
  if nms = false then self.model x
  else nmsFn (self.model x) ⟨self.conf_thres, self.iou_thres, none, false, 100⟩

/-- YmirYolov5.init_detector: resolve the weight file; raise when the
resolver returns an empty result, otherwise load the backend (abstract
parameter loadModel) with the resolved path. -/
def init_detector {μ : Type} (loadModel : String → μ) (weight_files : List String)
    (getctime : String → Int) : Except String μ :=
  if get_weight_file weight_files getctime = "" then
    Except.error "no weights file specified!"
  else
    Except.ok (loadModel (get_weight_file weight_files getctime))

/-- One row of a detection tensor: xyxy box, confidence, class index, as a
list of numbers (a row of a numpy array). -/
def rescaleRow (scale : List Rat → List Rat) (row : List Rat) : List Rat :=
  scale (row.take 4) ++ row.drop 4

/-- The result list built by predict: for each per-image detection tensor in
the NMS output, keep it (with boxes rescaled by the external scale_boxes,
parameter scale) when it is non-empty. -/
def predictResult (scale : List Rat → List Rat) (pred : List (List (List Rat))) :
    List (List Rat) :=
  (pred.filterMap
    (fun det => if det.length ≠ 0 then some (det.map (rescaleRow scale)) else none)).flatten

/-- A numpy array of detection rows with an explicit shape. -/
structure NpArray where
  nrows : Nat
  ncols : Nat
  rows : List (List Rat)

/-- predict post-processing: concatenate the surviving per-image detections;
when nothing survives return np.zeros(shape=(0, 6)). -/
def predict_post (scale : List Rat → List Rat) (pred : List (List (List Rat))) : NpArray :=
  if (predictResult scale pred).length > 0 then
    ⟨(predictResult scale pred).length, 6, predictResult scale pred⟩
  else
    ⟨0, 6, []⟩

/-- Modelled from the spec: get_ymir_process comes from the external
ymir_exc.util package and its code is not part of this repository.  The spec
fixes its contract: the per-task fraction p is rescaled into the slot of the
overall [0,1] range belonging to (task_idx, task_num), with 0.5 mapping to
0.25 for task 0 of 2 and to 0.75 for task 1 of 2. -/
def get_ymir_process (p : Rat) (task_idx task_num : Nat) : Rat :=
  ((task_idx : Rat) + p) / (task_num : Rat)

/-- write_monitor_logger forwards the rescaled overall fraction to the
external monitor; the forwarded value is the observable behaviour. -/
def write_monitor_logger (task_idx task_num : Nat) (p : Rat) : Rat :=
  get_ymir_process p task_idx task_num

/-- The harness input file paths used by convert_ymir_to_yolov5. -/
structure YmirInput where
  training_index_file : String
  val_index_file : String
  candidate_index_file : String

/-- The slice of the configuration convert_ymir_to_yolov5 reads. -/
structure ConvertCfg where
  cache_dir : String
  root_dir : String
  class_names : List String
  input : YmirInput

/-- The data.yaml manifest written by convert_ymir_to_yolov5. -/
structure DataYaml where
  path : String
  nc : Nat
  names : List (Nat × String)
  train : String
  val : String
  test : String

/-- The copy side effects of the conversion: for each of the three splits
(train from training_index_file, val from val_index_file, test from
candidate_index_file), copy the source file into cache_dir under the fixed
split filename when the source exists on disk. -/
def splitCopies (fsExists : String → Bool) (cache_dir : String) (inp : YmirInput) :
    List (String × String) :=
  ([("train", inp.training_index_file), ("val", inp.val_index_file),
    ("test", inp.candidate_index_file)]).filterMap
    (fun sp => if fsExists sp.2 then
        some (sp.2, cache_dir ++ "/" ++ sp.1 ++ ".tsv") else none)

/-- The observable outcome of convert_ymir_to_yolov5: the manifest content,
the list of performed copies (source, destination), and the manifest path. -/
structure ConvertResult where
  data : DataYaml
  copies : List (String × String)
  data_yaml : String

/-- convert_ymir_to_yolov5: pick the cache directory (the cache_dir
parameter when non-empty, else the output root), copy the split index files
that exist, and write a manifest with path, nc, enumerated names, and the
three fixed split filenames, regardless of which copies happened. -/
def convert_ymir_to_yolov5 (fsExists : String → Bool) (cfg : ConvertCfg) : ConvertResult :=
  let cache_dir := if cfg.cache_dir = "" then cfg.root_dir else cfg.cache_dir
  ⟨⟨cache_dir, cfg.class_names.length, cfg.class_names.enum,
    "train.tsv", "val.tsv", "test.tsv"⟩,
   splitCopies fsExists cache_dir cfg.input,
   cache_dir ++ "/data.yaml"⟩

/-! ### Helper lemmas -/

theorem pyMax_mem (f : String → Int) (ys : List String) :
    ∀ x, pyMax f x ys ∈ x :: ys := by
  induction ys with
  | nil => intro x; simp [pyMax]
  | cons y ys ih =>
    intro x
    by_cases hc : f y > f x
    · simp only [pyMax, if_pos hc]
      exact List.mem_cons.mpr (Or.inr (ih y))
    · simp only [pyMax, if_neg hc]
      rcases List.mem_cons.mp (ih x) with h1 | h1
      · exact List.mem_cons.mpr (Or.inl h1)
      · exact List.mem_cons.mpr (Or.inr (List.mem_cons.mpr (Or.inr h1)))

theorem pyMax_ge (f : String → Int) (ys : List String) :
    ∀ x q, q ∈ x :: ys → f q ≤ f (pyMax f x ys) := by
  induction ys with
  | nil =>
    intro x q hq
    have hx : q = x := by simpa using hq
    subst hx
    simp [pyMax]
  | cons y ys ih =>
    intro x q hq
    by_cases hc : f y > f x
    · simp only [pyMax, if_pos hc]
      rcases List.mem_cons.mp hq with h1 | h1
      · subst h1
        exact le_trans (le_of_lt hc) (ih y y (List.mem_cons_self y ys))
      · exact ih y q h1
    · simp only [pyMax, if_neg hc]
      rcases List.mem_cons.mp hq with h1 | h1
      · rw [h1]
        exact ih x x (List.mem_cons_self x ys)
      · rcases List.mem_cons.mp h1 with h2 | h2
        · rw [h2]
          exact le_trans (le_of_not_lt hc) (ih x x (List.mem_cons_self x ys))
        · exact ih x q (List.mem_cons.mpr (Or.inr h2))

theorem gwf_find_some (files : List String) (getctime : String → Int) (p : String)
    (h : files.find? (fun q => strEndsWith q "best.pt") = some p) :
    get_weight_file files getctime = p := by
  unfold get_weight_file
  rw [h]

theorem gwf_find_none (x : String) (xs : List String) (getctime : String → Int)
    (h : (x :: xs).find? (fun q => strEndsWith q "best.pt") = none) :
    get_weight_file (x :: xs) getctime = pyMax getctime x xs := by
  unfold get_weight_file
  rw [h]

theorem find?_some_of_mem {α : Type} (pred : α → Bool) (l : List α) :
    ∀ p, p ∈ l → pred p = true → ∃ r, l.find? pred = some r ∧ pred r = true := by
  induction l with
  | nil => intro p hp; simp at hp
  | cons x xs ih =>
    intro p hp hpred
    by_cases hx : pred x = true
    · exact ⟨x, List.find?_cons_of_pos xs hx, hx⟩
    · rcases List.mem_cons.mp hp with h1 | h1
      · subst h1; exact absurd hpred hx
      · obtain ⟨r, hr, hrp⟩ := ih p h1 hpred
        exact ⟨r, by rw [List.find?_cons_of_neg xs hx]; exact hr, hrp⟩

theorem splitCopies_exists_src (fsExists : String → Bool) (cache_dir : String)
    (inp : YmirInput) (src dst : String)
    (h : (src, dst) ∈ splitCopies fsExists cache_dir inp) : fsExists src = true := by
  rcases List.mem_filterMap.mp h with ⟨sp, _, heq⟩
  by_cases hx : fsExists sp.2 = true
  · rw [if_pos hx] at heq
    injection heq with hpair
    have hsrc : sp.2 = src := congrArg Prod.fst hpair
    rw [← hsrc]
    exact hx
  · rw [if_neg hx] at heq
    exact absurd heq (by simp)

theorem predictResult_nil (scale : List Rat → List Rat) :
    ∀ (pred : List (List (List Rat))), (∀ det ∈ pred, det = []) →
      predictResult scale pred = [] := by
  intro pred
  induction pred with
  | nil => intro _; rfl
  | cons d ds ih =>
    intro h
    have hd : d = [] := h d (List.mem_cons_self d ds)
    subst hd
    unfold predictResult at ih ⊢
    rw [List.filterMap_cons_none (by simp)]
    exact ih (fun det hdet => h det (List.mem_cons.mpr (Or.inr hdet)))

/-! ### Claim theorems -/

/-- Claim C1, counterexample: forward with nms = true calls
non_max_suppression with agnostic = false, so the result differs from what
class-agnostic suppression (agnostic = true) would produce; with a probe
suppression function that reports the agnostic flag, the two disagree on a
concrete adapter and input. -/
theorem forward_agnostic_counterexample :
    YmirYolov5.forward (fun _ args => if args.agnostic then 1 else 0)
        (⟨1/4, 9/20, 0, 1, fun _ => 7⟩ : YmirYolov5 Nat Nat) 3 true ≠
      (fun (_ : Nat) (args : NMSArgs) => if args.agnostic then 1 else 0) 7
        ⟨1/4, 9/20, none, true, 100⟩ := by
  decide

/-- Claim C1, amended: forward with nms = true returns the raw model output
passed through non-max suppression with the configured conf_thres and
iou_thres, no class filtering (classes = none), NON-class-agnostic
suppression (agnostic = false), and at most 100 detections per image; with
nms = false it returns the raw model output. -/
theorem forward_nms_args {α β : Type} (nmsFn : β → NMSArgs → β)
    (self : YmirYolov5 α β) (x : α) :
    self.forward nmsFn x true =
      nmsFn (self.model x) ⟨self.conf_thres, self.iou_thres, none, false, 100⟩ ∧
    self.forward nmsFn x false = self.model x :=
  ⟨rfl, rfl⟩

/-- Claim C2, counterexample: in a single-task run (here run_mining = false,
run_infer = true) an unknown task label does not raise; construction
proceeds with task index 0 of 1. -/
theorem taskIndexing_single_no_raise :
    taskIndexing false true "bogus" = Except.ok (0, 1) := rfl

/-- Claim C2, amended: constructing YmirYolov5 raises for a task label other
than infer and mining exactly when the run is a two-task run (both
run_mining and run_infer set); in a single-task run any task label is
accepted and the task settings default to index 0 of 1. -/
theorem taskIndexing_error_iff (rm ri : Bool) (task : String) :
    ((∃ e, taskIndexing rm ri task = Except.error e) ↔
      (rm = true ∧ ri = true ∧ task ≠ "infer" ∧ task ≠ "mining")) ∧
    ((rm && ri) = false → taskIndexing rm ri task = Except.ok (0, 1)) := by
  constructor
  · constructor
    · rintro ⟨e, he⟩
      cases rm with
      | false => simp [taskIndexing] at he
      | true =>
        cases ri with
        | false => simp [taskIndexing] at he
        | true =>
          by_cases h1 : task = "infer"
          · simp [taskIndexing, h1] at he
          · by_cases h2 : task = "mining"
            · simp [taskIndexing, h1, h2] at he
            · exact ⟨rfl, rfl, h1, h2⟩
    · rintro ⟨h1, h2, h3, h4⟩
      subst h1; subst h2
      exact ⟨"unknown task " ++ task, by simp [taskIndexing, h3, h4]⟩
  · intro h
    cases rm with
    | false => simp [taskIndexing]
    | true =>
      cases ri with
      | false => simp [taskIndexing]
      | true => simp at h

/-- Claim C2, witness for the amended statement at concrete inputs. -/
theorem taskIndexing_error_iff_witness :
    (∃ e, taskIndexing true true "bogus" = Except.error e) ∧
    taskIndexing false false "bogus" = Except.ok (0, 1) :=
  ⟨(taskIndexing_error_iff true true "bogus").1.mpr ⟨rfl, rfl, by decide, by decide⟩,
   (taskIndexing_error_iff false false "bogus").2 rfl⟩

/-- Claim C3: get_weight_file returns the first candidate ending in
"best.pt" when one exists; otherwise, on a non-empty list, a candidate of
the list whose creation time is maximal; otherwise the empty string. -/
theorem get_weight_file_policy (files : List String) (getctime : String → Int) :
    (∀ p, files.find? (fun q => strEndsWith q "best.pt") = some p →
        get_weight_file files getctime = p) ∧
    (files.find? (fun q => strEndsWith q "best.pt") = none → files ≠ [] →
        get_weight_file files getctime ∈ files ∧
        ∀ q ∈ files, getctime q ≤ getctime (get_weight_file files getctime)) ∧
    (files = [] → get_weight_file files getctime = "") := by
  refine ⟨fun p hp => gwf_find_some files getctime p hp, ?_, ?_⟩
  · intro hnone hne
    cases files with
    | nil => exact absurd rfl hne
    | cons x xs =>
      rw [gwf_find_none x xs getctime hnone]
      exact ⟨pyMax_mem getctime xs x, fun q hq => pyMax_ge getctime xs x q hq⟩
  · intro h
    subst h
    rfl

/-- Claim C3, witness: on a concrete list the first "best.pt" candidate is
chosen even though it is not the newest. -/
theorem get_weight_file_policy_witness :
    get_weight_file ["a.pt", "best.pt", "c.pt"] (fun _ => 0) = "best.pt" :=
  (get_weight_file_policy ["a.pt", "best.pt", "c.pt"] (fun _ => 0)).1 "best.pt" (by decide)

/-- Claim C4: the resolver returns an empty result (no exception) on an
empty candidate list, and init_detector raises exactly when the resolver
returns an empty result; otherwise it loads the model with the resolved
path, so no model is loaded on the error path. -/
theorem init_detector_error_iff {μ : Type} (loadModel : String → μ)
    (files : List String) (getctime : String → Int) :
    get_weight_file [] getctime = "" ∧
    ((∃ e, init_detector loadModel files getctime = Except.error e) ↔
      get_weight_file files getctime = "") ∧
    (get_weight_file files getctime ≠ "" →
      init_detector loadModel files getctime =
        Except.ok (loadModel (get_weight_file files getctime))) := by
  refine ⟨rfl, ⟨?_, ?_⟩, ?_⟩
  · rintro ⟨e, he⟩
    by_cases h : get_weight_file files getctime = ""
    · exact h
    · simp [init_detector, h] at he
  · intro h
    exact ⟨"no weights file specified!", by simp [init_detector, h]⟩
  · intro h
    simp [init_detector, h]

/-- Claim C4, witness: an empty candidate list makes init_detector raise,
and a single plain candidate is loaded. -/
theorem init_detector_error_iff_witness :
    (∃ e, init_detector (fun w => w) ([] : List String) (fun _ => 0) = Except.error e) ∧
    init_detector (fun w => w) ["model.pt"] (fun _ => 0) = Except.ok "model.pt" :=
  ⟨(init_detector_error_iff (fun w => w) [] (fun _ => 0)).2.1.mpr rfl,
   (init_detector_error_iff (fun w => w) ["model.pt"] (fun _ => 0)).2.2 (by decide)⟩

/-- Claim C5: the manifest has nc equal to the length of the configured
class name list and names equal to the enumeration sending each index to the
class name at that index; in particular for class_names = [cat, dog] it has
nc = 2 and names = [(0, cat), (1, dog)]. -/
theorem convert_manifest_classes (fsExists : String → Bool) (cfg : ConvertCfg) :
    (convert_ymir_to_yolov5 fsExists cfg).data.nc = cfg.class_names.length ∧
    (∀ i name, (i, name) ∈ (convert_ymir_to_yolov5 fsExists cfg).data.names ↔
        cfg.class_names[i]? = some name) ∧
    (cfg.class_names = ["cat", "dog"] →
        (convert_ymir_to_yolov5 fsExists cfg).data.nc = 2 ∧
        (convert_ymir_to_yolov5 fsExists cfg).data.names = [(0, "cat"), (1, "dog")]) := by
  refine ⟨rfl, ?_, ?_⟩
  · intro i name
    exact List.mk_mem_enum_iff_getElem?
  · intro h
    unfold convert_ymir_to_yolov5
    rw [h]
    exact ⟨rfl, rfl⟩

/-- Claim C5, witness at the concrete cat and dog configuration. -/
theorem convert_manifest_classes_witness :
    (convert_ymir_to_yolov5 (fun _ => false)
        ⟨"", "/out", ["cat", "dog"],
         ⟨"/in/train.tsv", "/in/val.tsv", "/in/candidate.tsv"⟩⟩).data.nc = 2 ∧
    (convert_ymir_to_yolov5 (fun _ => false)
        ⟨"", "/out", ["cat", "dog"],
         ⟨"/in/train.tsv", "/in/val.tsv", "/in/candidate.tsv"⟩⟩).data.names =
      [(0, "cat"), (1, "dog")] :=
  (convert_manifest_classes (fun _ => false)
    ⟨"", "/out", ["cat", "dog"],
     ⟨"/in/train.tsv", "/in/val.tsv", "/in/candidate.tsv"⟩⟩).2.2 rfl

/-- Claim C6: conversion always completes (it is a total function) and the
manifest records the fixed split filenames train.tsv, val.tsv, test.tsv for
every split whether or not the source index files exist; a split whose
source file does not exist is never copied. -/
theorem convert_missing_splits (fsExists : String → Bool) (cfg : ConvertCfg) :
    (convert_ymir_to_yolov5 fsExists cfg).data.train = "train.tsv" ∧
    (convert_ymir_to_yolov5 fsExists cfg).data.val = "val.tsv" ∧
    (convert_ymir_to_yolov5 fsExists cfg).data.test = "test.tsv" ∧
    (∀ src dst, fsExists src = false →
        (src, dst) ∉ (convert_ymir_to_yolov5 fsExists cfg).copies) := by
  refine ⟨rfl, rfl, rfl, ?_⟩
  intro src dst hmiss hmem
  have := splitCopies_exists_src fsExists
    (if cfg.cache_dir = "" then cfg.root_dir else cfg.cache_dir) cfg.input src dst hmem
  rw [hmiss] at this
  exact Bool.false_ne_true this

/-- Claim C6, witness: with no file existing on disk, the manifest still
lists val.tsv and the val index file is not copied. -/
theorem convert_missing_splits_witness :
    (convert_ymir_to_yolov5 (fun _ => false)
        ⟨"/cache", "/out", ["cat"],
         ⟨"/in/train.tsv", "/in/val.tsv", "/in/candidate.tsv"⟩⟩).data.val = "val.tsv" ∧
    ("/in/val.tsv", "/cache/val.tsv") ∉
      (convert_ymir_to_yolov5 (fun _ => false)
        ⟨"/cache", "/out", ["cat"],
         ⟨"/in/train.tsv", "/in/val.tsv", "/in/candidate.tsv"⟩⟩).copies :=
  ⟨(convert_missing_splits (fun _ => false)
      ⟨"/cache", "/out", ["cat"],
       ⟨"/in/train.tsv", "/in/val.tsv", "/in/candidate.tsv"⟩⟩).2.1,
   (convert_missing_splits (fun _ => false)
      ⟨"/cache", "/out", ["cat"],
       ⟨"/in/train.tsv", "/in/val.tsv", "/in/candidate.tsv"⟩⟩).2.2.2
     "/in/val.tsv" "/cache/val.tsv" rfl⟩

/-- Claim C7: when no detection survives for any image of the batch, the
predict post-processing returns the zero-row, six-column numpy array
np.zeros(shape=(0, 6)), never a null result. -/
theorem predict_post_empty (scale : List Rat → List Rat)
    (pred : List (List (List Rat))) (h : ∀ det ∈ pred, det = []) :
    predict_post scale pred = ⟨0, 6, []⟩ := by
  unfold predict_post
  rw [predictResult_nil scale pred h]
  rfl

/-- Claim C7, witness: a single image with zero surviving detections. -/
theorem predict_post_empty_witness :
    predict_post (fun r => r) [[]] = ⟨0, 6, []⟩ :=
  predict_post_empty (fun r => r) [[]] (by simp)

/-- Claim C8: in a two-task run a per-task fraction of 0.5 is forwarded as
0.25 for the mining task (index 0) and 0.75 for the inference task
(index 1); in general the per-task fraction lands inside the slot
[task_idx/task_num, (task_idx+1)/task_num] of the overall range. -/
theorem write_monitor_logger_scaling :
    write_monitor_logger 0 2 (1/2) = 1/4 ∧
    write_monitor_logger 1 2 (1/2) = 3/4 ∧
    ∀ (task_idx task_num : Nat) (p : Rat), 0 ≤ p → p ≤ 1 → task_idx < task_num →
      (task_idx : Rat) / (task_num : Rat) ≤ write_monitor_logger task_idx task_num p ∧
      write_monitor_logger task_idx task_num p ≤ ((task_idx : Rat) + 1) / (task_num : Rat) := by
  refine ⟨by norm_num [write_monitor_logger, get_ymir_process],
          by norm_num [write_monitor_logger, get_ymir_process], ?_⟩
  intro idx num p hp0 hp1 hlt
  have hpos : 0 < num := Nat.lt_of_le_of_lt (Nat.zero_le idx) hlt
  have hnum : (0 : Rat) < (num : Rat) := by exact_mod_cast hpos
  constructor
  · exact (div_le_div_iff_of_pos_right hnum).mpr (by linarith)
  · exact (div_le_div_iff_of_pos_right hnum).mpr (by linarith)

/-- Claim C8, witness: the slot bounds at the concrete mining task. -/
theorem write_monitor_logger_scaling_witness :
    (0 : Rat) / (2 : Rat) ≤ write_monitor_logger 0 2 (1/2) ∧
    write_monitor_logger 0 2 (1/2) ≤ ((0 : Rat) + 1) / (2 : Rat) :=
  write_monitor_logger_scaling.2.2 0 2 (1/2) (by norm_num) (by norm_num) (by norm_num)

/-- Claim C9: the best preference is a pure suffix test on the whole path:
whenever any candidate path ends with best.pt the resolver returns a path
ending with best.pt, and concretely not_best.pt and 2ndbest.pt are preferred
over a.pt whatever the creation times. -/
theorem best_suffix_whole_path (files : List String) (getctime : String → Int)
    (p : String) (hp : p ∈ files) (h : strEndsWith p "best.pt" = true) :
    strEndsWith (get_weight_file files getctime) "best.pt" = true ∧
    get_weight_file ["a.pt", "not_best.pt"] getctime = "not_best.pt" ∧
    get_weight_file ["a.pt", "2ndbest.pt"] getctime = "2ndbest.pt" := by
  refine ⟨?_, rfl, rfl⟩
  obtain ⟨r, hr, hrp⟩ :=
    find?_some_of_mem (fun q => strEndsWith q "best.pt") files p hp h
  rw [gwf_find_some files getctime r hr]
  exact hrp

/-- Claim C9, witness: a path whose basename is not exactly best.pt still
triggers the preference. -/
theorem best_suffix_whole_path_witness :
    strEndsWith (get_weight_file ["x_best.pt"] (fun _ => 0)) "best.pt" = true :=
  (best_suffix_whole_path ["x_best.pt"] (fun _ => 0) "x_best.pt"
    (by decide) (by decide)).1

/-- Claim C10: the conversion copies the train split from
training_index_file, the val split from val_index_file and the test split
from candidate_index_file (the mining candidate set), each exactly when the
source exists. -/
theorem convert_split_sources (fsExists : String → Bool) (cfg : ConvertCfg) :
    (convert_ymir_to_yolov5 fsExists cfg).copies =
      (if fsExists cfg.input.training_index_file then
        [(cfg.input.training_index_file,
          (if cfg.cache_dir = "" then cfg.root_dir else cfg.cache_dir) ++ "/" ++ "train" ++ ".tsv")]
       else []) ++
      (if fsExists cfg.input.val_index_file then
        [(cfg.input.val_index_file,
          (if cfg.cache_dir = "" then cfg.root_dir else cfg.cache_dir) ++ "/" ++ "val" ++ ".tsv")]
       else []) ++
      (if fsExists cfg.input.candidate_index_file then
        [(cfg.input.candidate_index_file,
          (if cfg.cache_dir = "" then cfg.root_dir else cfg.cache_dir) ++ "/" ++ "test" ++ ".tsv")]
       else []) := by
  by_cases h1 : fsExists cfg.input.training_index_file = true <;>
  by_cases h2 : fsExists cfg.input.val_index_file = true <;>
  by_cases h3 : fsExists cfg.input.candidate_index_file = true <;>
  simp [convert_ymir_to_yolov5, splitCopies, h1, h2, h3]

end YmirSpec
